import Mathlib

/-!
Verification of the bulk_extractor Phase 1 dispatch engine against its
specification.

The development shallowly embeds the code of `phase1.cpp`
(`BulkExtractor_Phase1::get_sbuf`, `make_sorted_random_blocklist`,
`send_data_to_workers`, `wait_for_workers`) and the position construction of
`scan_gzip.cpp`.  Machine integers are modelled as `Nat`; the C++ `float`
sampling fraction is modelled as an exact rational; a fallible allocation is
an oracle `Nat → Option α` (`none` models a thrown `std::bad_alloc`).
-/

namespace BulkExtractor

/-! ## Allocator retry policy: `BulkExtractor_Phase1::get_sbuf`

```cpp
for(u_int retry_count=0;retry_count<config.max_bad_alloc_errors;retry_count++){
    try { return it.sbuf_alloc(); }
    catch (const std::bad_alloc &e) { /* log to stderr and xreport */ }
    if (retry_count < config.max_bad_alloc_errors+1){ sleep(retry_seconds); }
}
throw std::runtime_error("too many sbuf allocation errors");
```

`alloc i` is the outcome of the `i`-th call to `it.sbuf_alloc()`:
`some s` is a successful return, `none` a thrown `std::bad_alloc`.
The model records, besides the outcome, how many allocation calls were made,
how many `bad_alloc` log entries were written, and the list of sleep
durations performed. -/

structure GetSbufResult (α : Type) where
  /-- Outcome `some s`: the sbuf returned; `none`: `runtime_error` thrown after the
  loop exhausted its budget. -/
  result : Option α
  /-- number of calls to `it.sbuf_alloc()` -/
  attempts : Nat
  /-- number of `bad_alloc` log entries (stderr line + `debug:exception`) -/
  logs : Nat
  /-- durations of the sleeps performed, in order -/
  sleeps : List Nat
  deriving DecidableEq, Repr

/-- The `for` loop of `get_sbuf`, at loop counter `retry_count = i`, with
`remaining = max - i` iterations still allowed by the loop condition
`retry_count < max` (`max = config.max_bad_alloc_errors`,
`rs = config.retry_seconds`).  Structural recursion on `remaining`. -/
def get_sbuf_go (α : Type) (alloc : Nat → Option α) (rs max : Nat) :
    Nat → Nat → GetSbufResult α
  | 0, _ =>
    -- loop exhausted: "Too many errors encountered in a row." + throw
    { result := none, attempts := 0, logs := 0, sleeps := [] }
  | remaining + 1, i =>
    match alloc i with
    | some s => { result := some s, attempts := 1, logs := 0, sleeps := [] }
    | none =>
      -- the catch block logs, then `if (retry_count < max+1)` sleeps
      let sl : List Nat := if i < max + 1 then [rs] else []
      let rest := get_sbuf_go α alloc rs max remaining (i + 1)
      { result := rest.result, attempts := rest.attempts + 1,
        logs := rest.logs + 1, sleeps := sl ++ rest.sleeps }

/-- The function `BulkExtractor_Phase1::get_sbuf` (phase1.cpp lines 64–89). -/
def get_sbuf (α : Type) (alloc : Nat → Option α) (rs max : Nat) :
    GetSbufResult α :=
  get_sbuf_go α alloc rs max max 0

/-- The allocation oracle of scenario S5: `bad_alloc` twice, then success. -/
def oomTwiceAlloc : Nat → Option Unit :=
  fun i => if i < 2 then none else some ()

/-- Combined invariant of the retry loop, proved by induction on the number
of remaining iterations: sleeps happen after every failure and last
`retry_seconds` each; the fatal outcome occurs exactly when every allocation
call in the remaining window failed; and the loop makes at most one
allocation call and one log entry per iteration. -/
theorem get_sbuf_go_spec (α : Type) (alloc : Nat → Option α) (rs max : Nat) :
    ∀ r i, i + r = max →
      ((get_sbuf_go α alloc rs max r i).sleeps =
        List.replicate (get_sbuf_go α alloc rs max r i).logs rs) ∧
      ((get_sbuf_go α alloc rs max r i).result = none ↔
        ∀ j, i ≤ j → j < max → alloc j = none) ∧
      (get_sbuf_go α alloc rs max r i).logs ≤ r ∧
      (get_sbuf_go α alloc rs max r i).attempts ≤ r := by
  intro r
  induction r with
  | zero =>
    intro i hi
    exact ⟨rfl, ⟨fun _ j hij hj => (by omega : False).elim, fun _ => rfl⟩,
      Nat.le_refl _, Nat.le_refl _⟩
  | succ r ih =>
    intro i hi
    have hilt : i < max := by omega
    have hrec := ih (i + 1) (by omega)
    simp only [get_sbuf_go]
    cases halloc : alloc i with
    | some s =>
      refine ⟨rfl, ?_, by show (0:Nat) ≤ r + 1; omega,
        by show (1:Nat) ≤ r + 1; omega⟩
      show (some s : Option α) = none ↔ ∀ j, i ≤ j → j < max → alloc j = none
      constructor
      · intro h
        exact (Option.some_ne_none s h).elim
      · intro hall
        have h0 := hall i (Nat.le_refl i) hilt
        rw [halloc] at h0
        exact h0
    | none =>
      refine ⟨?_, ?_, ?_, ?_⟩
      · show (if i < max + 1 then [rs] else []) ++
            (get_sbuf_go α alloc rs max r (i + 1)).sleeps =
          List.replicate ((get_sbuf_go α alloc rs max r (i + 1)).logs + 1) rs
        rw [if_pos (Nat.lt_succ_of_lt hilt), hrec.1, List.replicate_succ]
        rfl
      · show (get_sbuf_go α alloc rs max r (i + 1)).result = none ↔
          ∀ j, i ≤ j → j < max → alloc j = none
        rw [hrec.2.1]
        constructor
        · intro hall j hij hj
          rcases Nat.eq_or_lt_of_le hij with h | h
          · exact h ▸ halloc
          · exact hall j h hj
        · intro hall j hij hj
          exact hall j (Nat.le_of_lt hij) hj
      · show (get_sbuf_go α alloc rs max r (i + 1)).logs + 1 ≤ r + 1
        have := hrec.2.2.1
        omega
      · show (get_sbuf_go α alloc rs max r (i + 1)).attempts + 1 ≤ r + 1
        have := hrec.2.2.2
        omega

/-- The retry loop of `get_sbuf`: at most `max_bad_alloc_errors` allocation
calls are made; every `bad_alloc` failure is logged and followed by a sleep of
`retry_seconds`; the fatal `runtime_error` is thrown exactly when every
allocation call failed. -/
theorem get_sbuf_spec (α : Type) (alloc : Nat → Option α) (rs max : Nat) :
    (get_sbuf α alloc rs max).attempts ≤ max ∧
    (get_sbuf α alloc rs max).logs ≤ max ∧
    (get_sbuf α alloc rs max).sleeps =
      List.replicate (get_sbuf α alloc rs max).logs rs ∧
    ((get_sbuf α alloc rs max).result = none ↔
      ∀ j, j < max → alloc j = none) := by
  have h := get_sbuf_go_spec α alloc rs max max 0 (by omega)
  refine ⟨h.2.2.2, h.2.2.1, h.1, ?_⟩
  rw [show get_sbuf α alloc rs max = get_sbuf_go α alloc rs max max 0 from rfl,
    h.2.1]
  constructor
  · intro hall j hj
    exact hall j (Nat.zero_le j) hj
  · intro hall j _ hj
    exact hall j hj

/-- C2 (counterexample): with `max_bad_alloc_errors = 1` and an iterator that
raises out-of-memory on its first two allocation calls, `get_sbuf` terminates
fatally after exactly 1 allocation attempt — not after 2 attempts as the
claim states. -/
theorem claim_C2_counterexample :
    (get_sbuf Unit oomTwiceAlloc 30 1).result = none ∧
    (get_sbuf Unit oomTwiceAlloc 30 1).attempts ≠ 2 ∧
    (get_sbuf Unit oomTwiceAlloc 30 1).attempts = 1 := by
  decide

/-- C2 (amended): if page acquisition raises out-of-memory exactly twice and
then succeeds, `get_sbuf` with `max_bad_alloc_errors = 3` returns the page
successfully after logging exactly 2 retry entries; with
`max_bad_alloc_errors = 1` it terminates fatally after exactly 1 allocation
attempt (the loop makes at most `max_bad_alloc_errors` attempts in total). -/
theorem claim_C2_amended :
    ((get_sbuf Unit oomTwiceAlloc 30 3).result = some () ∧
      (get_sbuf Unit oomTwiceAlloc 30 3).logs = 2) ∧
    ((get_sbuf Unit oomTwiceAlloc 30 1).result = none ∧
      (get_sbuf Unit oomTwiceAlloc 30 1).attempts = 1) := by
  decide

/-! ## Sampling plan: `BulkExtractor_Phase1::make_sorted_random_blocklist`

```cpp
if (frac>0.2){ ...; throw std::runtime_error("Specify frac<0.2"); }
std::default_random_engine generator;
std::uniform_int_distribution<uint64_t> distribution(0,max_blocks);
while(blocklist->size() < max_blocks * frac){
    blocklist->insert( distribution(generator) );
}
```

The blocklist (`std::set<uint64_t>`) is modelled as a strictly sorted list;
the random draws as a stream `draws : Nat → Nat`.  Note that
`std::uniform_int_distribution<uint64_t>(0, max_blocks)` produces values in
the INCLUSIVE range `[0, max_blocks]`, so the distribution contract on the
stream is `∀ i, draws i ≤ max_blocks`.  The C++ `float` fraction is modelled
by its exact rational value: every finite binary32 value is a rational, the
widening `float → double` performed for the guard comparison `frac>0.2` is
exact, and the `double` literal `0.2` denotes the exact rational
`3602879701896397 · 2⁻⁵⁴`, so the guard is an exact comparison of
rationals. -/

/-- Insertion `std::set<uint64_t>::insert` on the sorted-list representation. -/
def blocklist_insert (x : Nat) : List Nat → List Nat
  | [] => [x]
  | y :: ys =>
    if x < y then x :: y :: ys
    else if x = y then y :: ys
    else y :: blocklist_insert x ys

/-- The `while (blocklist->size() < max_blocks * frac)` loop of
`make_sorted_random_blocklist`, from set contents `acc` and draw index `k`.
`fuel` bounds the number of modelled iterations; `none` means the loop was
not observed to finish within `fuel` iterations. -/
def blocklist_build (draws : Nat → Nat) (max_blocks : Nat) (frac : ℚ) :
    Nat → List Nat → Nat → Option (List Nat)
  | 0, _, _ => none
  | fuel + 1, acc, k =>
    if (acc.length : ℚ) < (max_blocks : ℚ) * frac then
      blocklist_build draws max_blocks frac fuel
        (blocklist_insert (draws k) acc) (k + 1)
    else some acc

/-- The exact rational value of the IEEE-754 `double` nearest to 0.2, i.e.
of the C++ `double` literal `0.2` in the guard `frac>0.2` (phase1.cpp line
118): `3602879701896397 × 2⁻⁵⁴`. -/
def double_0_2 : ℚ := 3602879701896397 / 18014398509481984

/-- The function `BulkExtractor_Phase1::make_sorted_random_blocklist`
(phase1.cpp lines 116–129): `frac > 0.2` — the `float frac` widened exactly
to `double` and compared with the exact value `double_0_2` of the `double`
literal `0.2` — throws `runtime_error("Specify frac<0.2")` before the
generator or the distribution is even constructed; otherwise the drawing
loop runs from the empty set. -/
def make_sorted_random_blocklist (draws : Nat → Nat) (max_blocks : Nat)
    (frac : ℚ) (fuel : Nat) : Except String (Option (List Nat)) :=
  if frac > double_0_2 then Except.error "Specify frac<0.2"
  else Except.ok (blocklist_build draws max_blocks frac fuel [] 0)

theorem blocklist_insert_mem (x : Nat) :
    ∀ (l : List Nat) (y : Nat), y ∈ blocklist_insert x l ↔ y = x ∨ y ∈ l := by
  intro l
  induction l with
  | nil =>
    intro y
    simp [blocklist_insert]
  | cons z zs ih =>
    intro y
    simp only [blocklist_insert]
    by_cases h1 : x < z
    · rw [if_pos h1, List.mem_cons]
    · by_cases h2 : x = z
      · subst h2
        rw [if_neg h1, if_pos rfl]
        constructor
        · intro h
          exact Or.inr h
        · intro h
          rcases h with h | h
          · rw [h]
            exact List.mem_cons_self _ _
          · exact h
      · simp only [if_neg h1, if_neg h2, List.mem_cons, ih]
        tauto

theorem blocklist_insert_length_le (x : Nat) :
    ∀ l : List Nat, (blocklist_insert x l).length ≤ l.length + 1 := by
  intro l
  induction l with
  | nil => simp [blocklist_insert]
  | cons z zs ih =>
    simp only [blocklist_insert]
    by_cases h1 : x < z
    · simp [if_pos h1]
    · by_cases h2 : x = z
      · simp [if_neg h1, if_pos h2]
      · simp only [if_neg h1, if_neg h2, List.length_cons]
        omega

theorem blocklist_insert_sorted (x : Nat) :
    ∀ l : List Nat, List.Sorted (· < ·) l →
      List.Sorted (· < ·) (blocklist_insert x l) := by
  intro l
  induction l with
  | nil =>
    intro _
    simp [blocklist_insert]
  | cons z zs ih =>
    intro hs
    rw [List.sorted_cons] at hs
    simp only [blocklist_insert]
    by_cases h1 : x < z
    · rw [if_pos h1, List.sorted_cons]
      refine ⟨?_, List.sorted_cons.mpr hs⟩
      intro b hb
      rcases List.mem_cons.mp hb with h | h
      · exact h ▸ h1
      · exact Nat.lt_trans h1 (hs.1 b h)
    · by_cases h2 : x = z
      · rw [if_neg h1, if_pos h2]
        exact List.sorted_cons.mpr hs
      · rw [if_neg h1, if_neg h2, List.sorted_cons]
        refine ⟨?_, ih hs.2⟩
        intro b hb
        rcases (blocklist_insert_mem x zs b).mp hb with h | h
        · subst h
          omega
        · exact hs.1 b h

/-- Invariant of the drawing loop: if it finishes, the resulting plan has
exactly `⌈max_blocks * frac⌉` entries, is strictly ascending, and contains
only values produced by the draw stream or already present. -/
theorem blocklist_build_spec (draws : Nat → Nat) (max_blocks : Nat)
    (frac : ℚ) (hdraws : ∀ i, draws i ≤ max_blocks) :
    ∀ (fuel : Nat) (acc : List Nat) (k : Nat) (l : List Nat),
      acc.length ≤ ⌈(max_blocks : ℚ) * frac⌉₊ →
      List.Sorted (· < ·) acc →
      (∀ x ∈ acc, x ≤ max_blocks) →
      blocklist_build draws max_blocks frac fuel acc k = some l →
      l.length = ⌈(max_blocks : ℚ) * frac⌉₊ ∧
      List.Sorted (· < ·) l ∧ (∀ x ∈ l, x ≤ max_blocks) := by
  intro fuel
  induction fuel with
  | zero =>
    intro acc k l _ _ _ h
    exact absurd h (by simp [blocklist_build])
  | succ fuel ih =>
    intro acc k l hlen hsort hmem h
    rw [blocklist_build] at h
    by_cases hc : (acc.length : ℚ) < (max_blocks : ℚ) * frac
    · rw [if_pos hc] at h
      have hlt : acc.length < ⌈(max_blocks : ℚ) * frac⌉₊ := Nat.lt_ceil.mpr hc
      refine ih (blocklist_insert (draws k) acc) (k + 1) l ?_ ?_ ?_ h
      · have := blocklist_insert_length_le (draws k) acc
        omega
      · exact blocklist_insert_sorted (draws k) acc hsort
      · intro x hx
        rcases (blocklist_insert_mem (draws k) acc x).mp hx with hx | hx
        · exact hx ▸ hdraws k
        · exact hmem x hx
    · rw [if_neg hc] at h
      have hge : ¬ acc.length < ⌈(max_blocks : ℚ) * frac⌉₊ :=
        fun hlt => hc (Nat.lt_ceil.mp hlt)
      cases h
      exact ⟨by omega, hsort, hmem⟩

/-- C3 (counterexample): `std::uniform_int_distribution<uint64_t>(0,
max_blocks)` draws from the inclusive range `[0, max_blocks]`, so the value
`max_blocks` itself is a legitimate draw and can end up in the plan: with
`max_blocks = 10`, `frac = 1/10` and a draw stream producing `10`, the built
plan is `[10]`, which violates "every index in the resulting plan is strictly
less than max_blocks". -/
theorem claim_C3_counterexample :
    make_sorted_random_blocklist (fun _ => 10) 10 (1/10) 3 =
      Except.ok (some [10]) ∧ ¬ (∀ x ∈ [10], x < 10) := by
  constructor
  · norm_num [make_sorted_random_blocklist, double_0_2, blocklist_build,
      blocklist_insert]
  · simp

/-- C3 (amended): the plan is built by drawing integers from the INCLUSIVE
range `[0, max_blocks]` (the support of
`std::uniform_int_distribution<uint64_t>(0, max_blocks)`) and inserting them
into an ordered set until its size reaches `⌈frac * max_blocks⌉`: whenever
the loop finishes, every index of the plan is at most `max_blocks`, the plan
has exactly that cardinality, duplicates are absorbed (the plan has no
duplicates), and iteration is in ascending block order. -/
theorem claim_C3_amended (draws : Nat → Nat) (max_blocks fuel : Nat)
    (frac : ℚ) (l : List Nat) (hdraws : ∀ i, draws i ≤ max_blocks)
    (hrun : blocklist_build draws max_blocks frac fuel [] 0 = some l) :
    l.length = ⌈(max_blocks : ℚ) * frac⌉₊ ∧
    List.Sorted (· < ·) l ∧ l.Nodup ∧ (∀ x ∈ l, x ≤ max_blocks) := by
  have h := blocklist_build_spec draws max_blocks frac hdraws fuel [] 0 l
    (by simp) (by simp) (by simp) hrun
  exact ⟨h.1, h.2.1, h.2.1.nodup, h.2.2⟩

/-- A draw stream bounded by 20, for the C3 witness. -/
def boundedDraws : Nat → Nat := fun i => min i 20

/-- C3 (witness): a concrete terminating run — `max_blocks = 20`,
`frac = 1/10`, draws `0, 1, …` — builds the plan `[0, 1]` with the properties
of the amended claim. -/
theorem claim_C3_witness :
    blocklist_build boundedDraws 20 (1/10) 3 [] 0 = some [0, 1] ∧
    ([0, 1] : List Nat).length = ⌈(20 : ℚ) * (1/10)⌉₊ ∧
    List.Sorted (· < ·) ([0, 1] : List Nat) ∧
    ([0, 1] : List Nat).Nodup ∧ (∀ x ∈ ([0, 1] : List Nat), x ≤ 20) := by
  have hrun : blocklist_build boundedDraws 20 (1/10) 3 [] 0 = some [0, 1] := by
    norm_num [blocklist_build, blocklist_insert, boundedDraws]
  exact ⟨hrun, claim_C3_amended boundedDraws 20 3 (1/10) [0, 1]
    (fun i => Nat.min_le_right i 20) hrun⟩

/-- Characterization of the finite IEEE-754 binary32 (C++ `float`) values:
every such value is `m · 2^e` with `|m| < 2²⁴` and `-149 ≤ e ≤ 104` (normal
and subnormal values alike fit this shape, exactly). -/
def isFloat32 (q : ℚ) : Prop :=
  ∃ (m e : ℤ), m.natAbs < 2 ^ 24 ∧ -149 ≤ e ∧ e ≤ 104 ∧
    q = (m : ℚ) * 2 ^ e

/-- No binary32 value lies in the gap `[1/5, double(0.2)]`: the closest
float at or above 1/5 is `13421773 · 2⁻²⁶ = 0.20000000298…`, which already
exceeds the double `0.2 = 0.20000000000000001110…`.  Hence over the
representable `float` fractions, `f ≥ 0.2` (as reals) implies that the
widened comparison `f > 0.2` (against the double literal) is true. -/
theorem no_float32_in_gap (q : ℚ) (hq : isFloat32 q) (h5 : 1/5 ≤ q) :
    double_0_2 < q := by
  obtain ⟨m, e, hm, _, _, rfl⟩ := hq
  have hmlt : m < 2 ^ 24 := by omega
  rcases le_or_lt (-26 : ℤ) e with he | he
  · -- binade of 0.2 and above: the value is an integer multiple of 2⁻²⁶
    have hj0 : 0 ≤ e + 26 := by omega
    set j : Nat := (e + 26).toNat with hjdef
    have hej : (j : ℤ) = e + 26 := Int.toNat_of_nonneg hj0
    have hq_eq : (m : ℚ) * 2 ^ e = ((m * 2 ^ j : ℤ) : ℚ) / 2 ^ 26 := by
      have he' : e = (j : ℤ) - 26 := by omega
      rw [he', zpow_sub₀ (by norm_num : (2 : ℚ) ≠ 0), zpow_natCast]
      push_cast
      ring
    rw [hq_eq] at h5 ⊢
    have hnum : (13421773 : ℤ) ≤ m * 2 ^ j := by
      have h5' : (1 : ℚ) * 2 ^ 26 ≤ 5 * ((m * 2 ^ j : ℤ) : ℚ) := by
        rw [div_le_div_iff₀ (by norm_num) (by positivity)] at h5
        linarith
      have : (2 ^ 26 : ℤ) ≤ 5 * (m * 2 ^ j) := by exact_mod_cast h5'
      omega
    rw [double_0_2, div_lt_div_iff₀ (by norm_num) (by positivity)]
    have hcast : (13421773 : ℚ) ≤ ((m * 2 ^ j : ℤ) : ℚ) := by
      exact_mod_cast hnum
    have hbig : (3602879701896397 : ℚ) * 2 ^ 26 <
        13421773 * 18014398509481984 := by norm_num
    nlinarith
  · -- below the binade of 0.2: every float with `|m| < 2²⁴` is < 1/5
    exfalso
    have hk0 : 0 ≤ -e - 27 := by omega
    set k : Nat := (-e - 27).toNat with hkdef
    have hek : (k : ℤ) = -e - 27 := Int.toNat_of_nonneg hk0
    have hq_eq : (m : ℚ) * 2 ^ e = (m : ℚ) / (2 ^ 27 * 2 ^ k) := by
      have he' : e = -((27 : ℤ) + k) := by omega
      rw [he', zpow_neg, zpow_add₀ (by norm_num : (2 : ℚ) ≠ 0),
        zpow_natCast]
      norm_num
      ring
    rw [hq_eq] at h5
    have hfive : (2 ^ 27 * 2 ^ k : ℚ) ≤ 5 * m := by
      rw [div_le_div_iff₀ (by norm_num) (by positivity)] at h5
      linarith
    have hint : (2 ^ 27 * 2 ^ k : ℤ) ≤ 5 * m := by exact_mod_cast hfive
    have hk1 : (1 : ℤ) ≤ 2 ^ k := by
      have := Nat.one_le_two_pow (n := k)
      exact_mod_cast this
    have hbig : (2 : ℤ) ^ 27 ≤ 2 ^ 27 * 2 ^ k :=
      le_mul_of_one_le_right (by norm_num) hk1
    omega

/-- C6: over the representable `float` sampling fractions, every fraction
`f ≥ 0.2` is rejected at startup with the configuration error — before any
block index is drawn (the outcome does not depend on the draw stream) — and
every representable fraction with `0 < f < 0.2` passes the guard, so the
plan is built normally by the drawing loop.  The boundary is exact:
no binary32 value lies in `[1/5, double(0.2)]`, so the strict C++ guard
`frac > 0.2` rejects precisely the representable fractions ≥ 0.2. -/
theorem claim_C6 (frac : ℚ) (draws draws' : Nat → Nat)
    (max_blocks fuel : Nat) (hfloat : isFloat32 frac) :
    (1/5 ≤ frac →
      make_sorted_random_blocklist draws max_blocks frac fuel =
        Except.error "Specify frac<0.2" ∧
      make_sorted_random_blocklist draws max_blocks frac fuel =
        make_sorted_random_blocklist draws' max_blocks frac fuel) ∧
    (0 < frac → frac < 1/5 →
      make_sorted_random_blocklist draws max_blocks frac fuel =
        Except.ok (blocklist_build draws max_blocks frac fuel [] 0)) := by
  constructor
  · intro h5
    have hgt : double_0_2 < frac := no_float32_in_gap frac hfloat h5
    rw [make_sorted_random_blocklist, make_sorted_random_blocklist,
      if_pos hgt, if_pos hgt]
    exact ⟨rfl, rfl⟩
  · intro _ hlt
    have hnot : ¬ double_0_2 < frac := by
      have h52 : (1 : ℚ)/5 < double_0_2 := by norm_num [double_0_2]
      linarith
    rw [make_sorted_random_blocklist, if_neg hnot]

/-- The binary32 value nearest 0.2: `0.2f = 13421773 · 2⁻²⁶`. -/
def floatNearest02 : ℚ := 13421773 / 67108864

/-- The binary32 value nearest 0.1: `0.1f = 13421773 · 2⁻²⁷`. -/
def floatNearest01 : ℚ := 13421773 / 134217728

/-- C6 (witness): the representable fraction closest to 0.2 (which is
≥ 0.2) is rejected, and the representable fraction closest to 0.1 is
accepted with the plan built by the loop. -/
theorem claim_C6_witness :
    (make_sorted_random_blocklist boundedDraws 10 floatNearest02 20 =
      Except.error "Specify frac<0.2") ∧
    (make_sorted_random_blocklist boundedDraws 10 floatNearest01 20 =
      Except.ok (blocklist_build boundedDraws 10 floatNearest01 20 [] 0)) := by
  constructor
  · have hfloat : isFloat32 floatNearest02 :=
      ⟨13421773, -26, by norm_num, by norm_num, by norm_num,
        by rw [floatNearest02, zpow_neg]; norm_num⟩
    exact ((claim_C6 floatNearest02 boundedDraws boundedDraws 10 20
      hfloat).1 (by norm_num [floatNearest02])).1
  · have hfloat : isFloat32 floatNearest01 :=
      ⟨13421773, -27, by norm_num, by norm_num, by norm_num,
        by rw [floatNearest01, zpow_neg]; norm_num⟩
    exact (claim_C6 floatNearest01 boundedDraws boundedDraws 10 20
      hfloat).2 (by norm_num [floatNearest01])
      (by norm_num [floatNearest01])

/-! ## Position (`pos0_t`)

Modelled from the spec: the `pos0_t` type and its `+` operators live in the
external `be13_api` library and are not under src/.  Per the spec's data
model (§3) a Position is "an ordered list of segments.  The first segment is
a byte offset within the original image; each subsequent segment is a tag …
optionally followed by a sub-offset", stringified like `12345-GZIP-0`.
`path` holds the closed segments and `offset` the trailing byte offset, so
the segment list is `path ++ [offset]`. -/

inductive Seg where
  | off : Nat → Seg
  | tagged : String → Seg
  deriving DecidableEq

structure Position where
  path : List Seg
  offset : Nat
  deriving DecidableEq

/-- The ordered segment list of a position. -/
def Position.segments (p : Position) : List Seg :=
  p.path ++ [Seg.off p.offset]

/-- Modelled from the spec: `pos0_t + int64_t` (be13_api, not under src/)
advances the byte offset — a byte at distance `n` inside the region at `p`
sits at byte offset `p.offset + n` of the same provenance path. -/
def Position.addOffset (p : Position) (n : Nat) : Position :=
  { path := p.path, offset := p.offset + n }

/-- Modelled from the spec: `pos0_t + std::string` (be13_api, not under
src/) closes the current offset segment, appends the tag segment, and starts
a fresh sub-offset 0 — yielding stringified paths like `12345-GZIP-0`
(spec §2, §3). -/
def Position.addTag (p : Position) (t : String) : Position :=
  { path := p.path ++ [Seg.off p.offset, Seg.tagged t], offset := 0 }

/-- Rendering of one segment in the stringified position. -/
def Seg.render : Seg → String
  | .off n => toString n
  | .tagged t => t

/-- Stringification `pos0_t::str()`: the position string used as the key of the
seen-page set. -/
def Position.str (p : Position) : String :=
  String.intercalate "-" (p.segments.map Seg.render)

/-- The derived-page position built by `scan_gzip` (scan_gzip.cpp lines
78–79): `const pos0_t pos0_gzip = (pos0 + pos) + "GZIP";` where
`pos = cc - sbuf.buf` is the offset of the gzip signature match within the
parent page. -/
def scan_gzip_child_pos (pos0 : Position) (pos : Nat) : Position :=
  (pos0.addOffset pos).addTag "GZIP"

/-- C9 (counterexample): for a parent page at image offset 100 and a gzip
signature match at offset 7 inside it, the child position is
`107-GZIP-0`; the parent's position `100` is not a prefix of it, so the
parent's Position is not a strict prefix of every recursively derived
Position. -/
theorem claim_C9_counterexample :
    ¬ (Position.segments { path := [], offset := 100 } <+:
        Position.segments
          (scan_gzip_child_pos { path := [], offset := 100 } 7)) := by
  intro h
  obtain ⟨t, ht⟩ := h
  simp only [Position.segments, scan_gzip_child_pos, Position.addTag,
    Position.addOffset, List.nil_append, List.cons_append] at ht
  have := List.head_eq_of_cons_eq ht
  simp at this

/-- C9 (amended): the gzip scanner derives the child position from the
parent position ADVANCED BY THE MATCH OFFSET: the segments of
`parent + pos` form a strict prefix of the child's segments, extended by the
tag segment `GZIP` (with fresh sub-offset 0); the parent's own Position is a
strict prefix of the child's exactly when the match offset is 0. -/
theorem claim_C9_amended (parent : Position) (pos : Nat) :
    (Position.segments (scan_gzip_child_pos parent pos) =
      Position.segments (parent.addOffset pos) ++
        [Seg.tagged "GZIP", Seg.off 0]) ∧
    ((Position.segments parent <+:
        Position.segments (scan_gzip_child_pos parent pos)) ↔ pos = 0) := by
  constructor
  · simp [Position.segments, scan_gzip_child_pos, Position.addTag,
      Position.addOffset]
  · constructor
    · intro h
      obtain ⟨t, ht⟩ := h
      simp only [Position.segments, scan_gzip_child_pos, Position.addTag,
        Position.addOffset, List.append_assoc] at ht
      have h2 := List.append_cancel_left ht
      simp only [List.cons_append, List.nil_append] at h2
      have h3 := List.head_eq_of_cons_eq h2
      have h4 : parent.offset = parent.offset + pos := by
        injection h3
      omega
    · intro h
      subst h
      refine ⟨[Seg.tagged "GZIP", Seg.off 0], ?_⟩
      simp [Position.segments, scan_gzip_child_pos, Position.addTag,
        Position.addOffset]

/-! ## Dispatch loop: `BulkExtractor_Phase1::send_data_to_workers`

The loop (phase1.cpp lines 186–252) walks a sequence of candidate pages —
the sequential iterator's pages, or the pages selected by the sampling
blocklist — and for each candidate:

```cpp
if (config.opt_offset_end!=0 && config.opt_offset_end <= it.raw_offset){ break; }
if (config.opt_page_start<=it.page_number && config.opt_offset_start<=it.raw_offset){
    if (seen_page_ids.find(it.get_pos0().str()) == seen_page_ids.end()){
        try {
            sbuf_t *sbufp = get_sbuf(it);
            if (sha1g){
                if (sbuf.pos0.offset==sha1_next){
                    sha1g->update(sbuf.buf, sbuf.pagesize); sha1_next += sbuf.pagesize;
                } else { delete sha1g; sha1g = 0; }
            }
            total_bytes += sbuf.pagesize;
            tp->push( [wu]{ wu.process(); } );
        } catch (const std::exception &e) { /* log debug:exception, continue */ }
    }
}
```

Note that the `catch` clause catches every `std::exception`, including the
`std::runtime_error` thrown by `get_sbuf` when its retry budget is
exhausted, so a fatal allocation failure on one page does not stop the loop.
Note also that nothing is ever inserted into `seen_page_ids` here.

The SHA-1 generator `sha1g` (dfxml, not under src/) is modelled by the byte
stream fed to its `update` method: two generators emit equal digests iff
they were fed equal streams, so digest equality reduces to stream
equality.  Out-of-memory behaviour of `it.sbuf_alloc()` is an oracle
`oom k i : Bool` — whether the `i`-th allocation attempt for the `k`-th
candidate throws `std::bad_alloc`. -/

structure Page where
  page_number : Nat
  raw_offset : Nat
  pagesize : Nat
  /-- bytes of the buffer; the leading `pagesize` bytes are the logical page -/
  content : List Nat
  pos0 : Position
  deriving DecidableEq

structure Config where
  opt_offset_start : Nat
  opt_offset_end : Nat
  opt_page_start : Nat
  max_bad_alloc_errors : Nat
  retry_seconds : Nat
  deriving DecidableEq

/-- Producer-side state of phase 1 as touched by `send_data_to_workers`. -/
structure DispatchState where
  /-- field `seen_page_ids`: stringified positions of pages already processed -/
  seen_page_ids : List String
  /-- field `sha1g`: `some fed` is a live generator that was fed `fed`; `none` a
  discarded generator -/
  sha1g : Option (List Nat)
  /-- field `sha1_next`: the raw offset the next hashed page must start at -/
  sha1_next : Nat
  /-- field `total_bytes` -/
  total_bytes : Nat
  /-- the pages pushed to the worker pool, in submission order -/
  submitted : List Page
  deriving DecidableEq

/-- The allocation behaviour of `it.sbuf_alloc()` at candidate `k`:
attempt `i` throws `bad_alloc` when `oom k i` and otherwise returns the
candidate's page buffer. -/
def page_alloc (oom : Nat → Nat → Bool) (k : Nat) (page : Page) :
    Nat → Option Page :=
  fun i => if oom k i then none else some page

/-- body of the dispatch loop for one candidate page (phase1.cpp lines
197–242, everything after the `opt_offset_end` break check). -/
def dispatch_step (cfg : Config) (oom : Nat → Nat → Bool) (k : Nat)
    (page : Page) (st : DispatchState) : DispatchState :=
  if cfg.opt_page_start ≤ page.page_number ∧
      cfg.opt_offset_start ≤ page.raw_offset then
    if page.pos0.str ∈ st.seen_page_ids then st
    else
      match (get_sbuf Page (page_alloc oom k page) cfg.retry_seconds
          cfg.max_bad_alloc_errors).result with
      | none => st  -- exception caught at line 231: logged, loop continues
      | some sbuf =>
        let st1 :=
          match st.sha1g with
          | some fed =>
            if sbuf.pos0.offset = st.sha1_next then
              { st with
                sha1g := some (fed ++ sbuf.content.take sbuf.pagesize),
                sha1_next := st.sha1_next + sbuf.pagesize }
            else
              { st with sha1g := none }
          | none => st
        { st1 with
          total_bytes := st1.total_bytes + sbuf.pagesize,
          submitted := st1.submitted ++ [sbuf] }
  else st

/-- The dispatch loop over the candidate pages, `k` being the index of the
current candidate (phase1.cpp lines 186–252). -/
def dispatch_loop (cfg : Config) (oom : Nat → Nat → Bool) :
    List Page → Nat → DispatchState → DispatchState
  | [], _, st => st
  | page :: rest, k, st =>
    if cfg.opt_offset_end ≠ 0 ∧ cfg.opt_offset_end ≤ page.raw_offset then st
    else dispatch_loop cfg oom rest (k + 1) (dispatch_step cfg oom k page st)

/-- Modelled from the spec: page `i` of a sequentially paged image — the
image iterator (be13_api, not under src/) yields it at raw offset
`i * pagesize` with a leaf position whose only segment is that byte offset
(spec §1, §6). -/
def seqPageAt (content : Nat → List Nat) (pagesize i : Nat) : Page :=
  { page_number := i, raw_offset := i * pagesize, pagesize := pagesize,
    content := content i, pos0 := { path := [], offset := i * pagesize } }

/-- Modelled from the spec: the sequential candidate pages of an image of
`M` pages of `pagesize` bytes each. -/
def seqPages (content : Nat → List Nat) (pagesize M : Nat) : List Page :=
  (List.range M).map (seqPageAt content pagesize)

/-- The allocation `it.sbuf_alloc()` either keeps failing or returns the candidate's own
page buffer: the retry loop's outcome for a candidate is `none` or
`some page`. -/
theorem get_sbuf_go_page_result (oom : Nat → Nat → Bool) (k : Nat)
    (page : Page) (rs max : Nat) :
    ∀ r i,
      (get_sbuf_go Page (page_alloc oom k page) rs max r i).result = none ∨
      (get_sbuf_go Page (page_alloc oom k page) rs max r i).result =
        some page := by
  intro r
  induction r with
  | zero =>
    intro i
    exact Or.inl rfl
  | succ r ih =>
    intro i
    simp only [get_sbuf_go]
    cases halloc : page_alloc oom k page i with
    | none => exact ih (i + 1)
    | some s =>
      right
      show some s = some page
      simp only [page_alloc] at halloc
      by_cases h : oom k i
      · rw [if_pos h] at halloc
        exact absurd halloc (by simp)
      · rw [if_neg h] at halloc
        exact halloc.symm

/-- Specialization of `get_sbuf_go_page_result` to the whole retry loop. -/
theorem get_sbuf_page_result (oom : Nat → Nat → Bool) (k : Nat) (page : Page)
    (rs max : Nat) :
    (get_sbuf Page (page_alloc oom k page) rs max).result = none ∨
    (get_sbuf Page (page_alloc oom k page) rs max).result = some page :=
  get_sbuf_go_page_result oom k page rs max max 0

/-- If allocation never fails and at least one retry-loop iteration is
allowed, `get_sbuf` returns the candidate's page on the first attempt. -/
theorem get_sbuf_success (oom : Nat → Nat → Bool) (k : Nat) (page : Page)
    (rs max : Nat) (hmax : 0 < max) (hoom : oom k 0 = false) :
    (get_sbuf Page (page_alloc oom k page) rs max).result = some page := by
  obtain ⟨r, hr⟩ : ∃ r, max = r + 1 := ⟨max - 1, by omega⟩
  rw [get_sbuf, hr]
  have halloc : page_alloc oom k page 0 = some page := by
    simp [page_alloc, hoom]
  simp only [get_sbuf_go, halloc]

/-- When the retry budget is exhausted (the `runtime_error` path), the
dispatch loop's `catch` swallows the exception and the candidate leaves the
state untouched. -/
theorem dispatch_step_fatal (cfg : Config) (oom : Nat → Nat → Bool)
    (k : Nat) (page : Page) (st : DispatchState)
    (hres : (get_sbuf Page (page_alloc oom k page) cfg.retry_seconds
      cfg.max_bad_alloc_errors).result = none) :
    dispatch_step cfg oom k page st = st := by
  unfold dispatch_step
  rw [hres]
  simp

/-- One candidate never removes or adds seen-page entries: `seen_page_ids`
is only read (`find`), never inserted into, by the dispatch loop. -/
theorem dispatch_step_seen (cfg : Config) (oom : Nat → Nat → Bool) (k : Nat)
    (page : Page) (st : DispatchState) :
    (dispatch_step cfg oom k page st).seen_page_ids = st.seen_page_ids := by
  unfold dispatch_step
  by_cases hgate : cfg.opt_page_start ≤ page.page_number ∧
      cfg.opt_offset_start ≤ page.raw_offset
  · rw [if_pos hgate]
    by_cases hseen : page.pos0.str ∈ st.seen_page_ids
    · rw [if_pos hseen]
    · rw [if_neg hseen]
      rcases get_sbuf_page_result oom k page cfg.retry_seconds
          cfg.max_bad_alloc_errors with h | h
      · rw [h]
      · rw [h]
        dsimp only
        cases h1 : st.sha1g with
        | none => rfl
        | some fed =>
          dsimp only
          by_cases h2 : page.pos0.offset = st.sha1_next
          · rw [if_pos h2]
          · rw [if_neg h2]
  · rw [if_neg hgate]

/-- One candidate either leaves the submission list unchanged or appends
exactly its own page. -/
theorem dispatch_step_submitted (cfg : Config) (oom : Nat → Nat → Bool)
    (k : Nat) (page : Page) (st : DispatchState) :
    (dispatch_step cfg oom k page st).submitted = st.submitted ∨
    (dispatch_step cfg oom k page st).submitted = st.submitted ++ [page] := by
  unfold dispatch_step
  by_cases hgate : cfg.opt_page_start ≤ page.page_number ∧
      cfg.opt_offset_start ≤ page.raw_offset
  · rw [if_pos hgate]
    by_cases hseen : page.pos0.str ∈ st.seen_page_ids
    · rw [if_pos hseen]
      exact Or.inl rfl
    · rw [if_neg hseen]
      rcases get_sbuf_page_result oom k page cfg.retry_seconds
          cfg.max_bad_alloc_errors with h | h
      · rw [h]
        exact Or.inl rfl
      · rw [h]
        dsimp only
        cases h1 : st.sha1g with
        | none => exact Or.inr rfl
        | some fed =>
          dsimp only
          by_cases h2 : page.pos0.offset = st.sha1_next
          · rw [if_pos h2]
            exact Or.inr rfl
          · rw [if_neg h2]
            exact Or.inr rfl
  · rw [if_neg hgate]
    exact Or.inl rfl

/-- A candidate that passes the page/offset gates, is not in the seen-page
set, and whose allocation succeeds, is submitted (appended to the
submission list), still without touching the seen-page set. -/
theorem dispatch_step_submit (cfg : Config) (oom : Nat → Nat → Bool)
    (k : Nat) (page : Page) (st : DispatchState)
    (hgate : cfg.opt_page_start ≤ page.page_number ∧
      cfg.opt_offset_start ≤ page.raw_offset)
    (hseen : page.pos0.str ∉ st.seen_page_ids)
    (hres : (get_sbuf Page (page_alloc oom k page) cfg.retry_seconds
      cfg.max_bad_alloc_errors).result = some page) :
    (dispatch_step cfg oom k page st).submitted = st.submitted ++ [page] := by
  unfold dispatch_step
  rw [if_pos hgate, if_neg hseen, hres]
  dsimp only
  cases h1 : st.sha1g with
  | none => rfl
  | some fed =>
    dsimp only
    by_cases h2 : page.pos0.offset = st.sha1_next
    · rw [if_pos h2]
    · rw [if_neg h2]

/-- The dispatch loop only ever reads `seen_page_ids` — nothing is inserted
into it (phase1.cpp has a `find` at line 203 and no `insert`). -/
theorem dispatch_loop_seen (cfg : Config) (oom : Nat → Nat → Bool) :
    ∀ (l : List Page) (k : Nat) (st : DispatchState),
      (dispatch_loop cfg oom l k st).seen_page_ids = st.seen_page_ids := by
  intro l
  induction l with
  | nil =>
    intro k st
    rfl
  | cons page rest ih =>
    intro k st
    rw [dispatch_loop]
    by_cases hb : cfg.opt_offset_end ≠ 0 ∧ cfg.opt_offset_end ≤ page.raw_offset
    · rw [if_pos hb]
    · rw [if_neg hb, ih, dispatch_step_seen]

/-- The submission list produced by the loop extends the initial one with a
subsequence of the candidate pages. -/
theorem dispatch_loop_submitted_sublist (cfg : Config)
    (oom : Nat → Nat → Bool) :
    ∀ (l : List Page) (k : Nat) (st : DispatchState),
      List.Sublist (dispatch_loop cfg oom l k st).submitted
        (st.submitted ++ l) := by
  intro l
  induction l with
  | nil =>
    intro k st
    simp [dispatch_loop]
  | cons page rest ih =>
    intro k st
    rw [dispatch_loop]
    by_cases hb : cfg.opt_offset_end ≠ 0 ∧ cfg.opt_offset_end ≤ page.raw_offset
    · rw [if_pos hb]
      exact List.sublist_append_left _ _
    · rw [if_neg hb]
      have h := ih (k + 1) (dispatch_step cfg oom k page st)
      rcases dispatch_step_submitted cfg oom k page st with hs | hs
      · rw [hs] at h
        refine h.trans ?_
        exact List.Sublist.append_left (List.sublist_cons_self page rest) _
      · rw [hs] at h
        refine h.trans ?_
        rw [List.append_assoc, List.singleton_append]

/-- A gate-free configuration with a retry budget of one attempt. -/
def onePassConfig : Config :=
  { opt_offset_start := 0, opt_offset_end := 0, opt_page_start := 0,
    max_bad_alloc_errors := 1, retry_seconds := 0 }

/-- An allocation oracle that never throws. -/
def noOom : Nat → Nat → Bool := fun _ _ => false

/-- The single page of a one-page image, at raw offset 0. -/
def zeroPage : Page :=
  { page_number := 0, raw_offset := 0, pagesize := 4, content := [9, 9, 9, 9],
    pos0 := { path := [], offset := 0 } }

/-- The producer state at the start of a fresh run without hashing. -/
def freshState : DispatchState :=
  { seen_page_ids := [], sha1g := none, sha1_next := 0, total_bytes := 0,
    submitted := [] }

/-- C1 (counterexample): the dispatch loop looks up each candidate's
stringified Position in `seen_page_ids` but never inserts into it.  A page
submitted in a first (sampling) pass is therefore still absent from the
seen-page set, and a second pass over the same blocklist (the
default-seeded `std::default_random_engine` rebuilds the identical plan)
submits the identical Position again: two submitted work units carry the
equal Position string "0". -/
theorem claim_C1_counterexample :
    ((dispatch_loop onePassConfig noOom [zeroPage] 0
        freshState).seen_page_ids = [] ∧
      (dispatch_loop onePassConfig noOom [zeroPage] 0
        (dispatch_loop onePassConfig noOom [zeroPage] 0
          freshState)).submitted.map (fun p => p.pos0.str) = ["0", "0"]) ∧
    ¬ (["0", "0"] : List String).Nodup := by
  refine ⟨⟨?_, ?_⟩, by decide⟩
  · decide
  · decide

/-- C1 (amended): the driver skips a page whose stringified Position is
already in the seen-page set, but it never inserts into that set — the
seen-page set is left exactly as it was loaded.  Within one run of the
dispatch loop no two submitted work units have equal Position strings
PROVIDED the candidate pages' Position strings are pairwise distinct (which
holds for one sequential pass and for one pass over a sampling blocklist);
dedup across multiple sampling passes is not enforced by insertion. -/
theorem claim_C1_amended :
    (∀ (cfg : Config) (oom : Nat → Nat → Bool) (l : List Page) (k : Nat)
        (st : DispatchState),
      (dispatch_loop cfg oom l k st).seen_page_ids = st.seen_page_ids) ∧
    (∀ (cfg : Config) (oom : Nat → Nat → Bool) (l : List Page) (k : Nat)
        (st : DispatchState),
      st.submitted = [] →
      (l.map fun p => p.pos0.str).Nodup →
      ((dispatch_loop cfg oom l k st).submitted.map
        fun p => p.pos0.str).Nodup) := by
  constructor
  · exact fun cfg oom l k st => dispatch_loop_seen cfg oom l k st
  · intro cfg oom l k st hsub hnodup
    have h := dispatch_loop_submitted_sublist cfg oom l k st
    rw [hsub, List.nil_append] at h
    exact (h.map fun p => p.pos0.str).nodup hnodup

/-- C1 (witness): a concrete one-page run — the seen set stays empty and the
single submitted Position string is trivially duplicate-free. -/
theorem claim_C1_witness :
    (dispatch_loop onePassConfig noOom [zeroPage] 0 freshState).seen_page_ids
      = freshState.seen_page_ids ∧
    freshState.submitted = [] ∧
    ([zeroPage].map fun p => p.pos0.str).Nodup ∧
    ((dispatch_loop onePassConfig noOom [zeroPage] 0 freshState).submitted.map
      fun p => p.pos0.str).Nodup := by
  refine ⟨claim_C1_amended.1 onePassConfig noOom [zeroPage] 0 freshState,
    rfl, by decide, ?_⟩
  exact claim_C1_amended.2 onePassConfig noOom [zeroPage] 0 freshState rfl
    (by decide)

/-- With a nonzero `opt_offset_end`, the loop processes exactly the longest
prefix of candidates whose raw offsets are below `opt_offset_end` and breaks
at the first candidate at or past it. -/
theorem dispatch_loop_takeWhile (cfg : Config) (oom : Nat → Nat → Bool)
    (hend : cfg.opt_offset_end ≠ 0) :
    ∀ (l : List Page) (k : Nat) (st : DispatchState),
      dispatch_loop cfg oom l k st =
        dispatch_loop cfg oom
          (l.takeWhile fun p => decide (p.raw_offset < cfg.opt_offset_end))
          k st := by
  intro l
  induction l with
  | nil =>
    intro k st
    rfl
  | cons page rest ih =>
    intro k st
    by_cases hb : cfg.opt_offset_end ≤ page.raw_offset
    · rw [dispatch_loop, if_pos ⟨hend, hb⟩, List.takeWhile_cons,
        if_neg (by simp [Nat.not_lt.mpr hb])]
      rfl
    · rw [dispatch_loop, if_neg (fun hc => hb hc.2), List.takeWhile_cons,
        if_pos (by simp [Nat.lt_of_not_le hb])]
      rw [dispatch_loop, if_neg (fun hc => hb hc.2)]
      exact ih (k + 1) (dispatch_step cfg oom k page st)

/-- C8: when `config.opt_offset_end` is nonzero, the dispatch loop stops at
the first candidate page whose starting raw offset is ≥ `opt_offset_end`
(running exactly as it would on the prefix of candidates strictly below it),
and every page it submits beyond the pre-existing submissions has raw offset
strictly below `opt_offset_end` — no work unit is submitted for the
past-the-end page or any later one. -/
theorem claim_C8 (cfg : Config) (oom : Nat → Nat → Bool) (l : List Page)
    (k : Nat) (st : DispatchState) (hend : cfg.opt_offset_end ≠ 0) :
    (dispatch_loop cfg oom l k st =
      dispatch_loop cfg oom
        (l.takeWhile fun p => decide (p.raw_offset < cfg.opt_offset_end))
        k st) ∧
    (∀ p ∈ (dispatch_loop cfg oom l k st).submitted,
      p ∈ st.submitted ∨ p.raw_offset < cfg.opt_offset_end) := by
  refine ⟨dispatch_loop_takeWhile cfg oom hend l k st, ?_⟩
  intro p hp
  rw [dispatch_loop_takeWhile cfg oom hend l k st] at hp
  have hsub := dispatch_loop_submitted_sublist cfg oom
    (l.takeWhile fun p => decide (p.raw_offset < cfg.opt_offset_end)) k st
  rcases List.mem_append.mp (hsub.subset hp) with h | h
  · exact Or.inl h
  · right
    have := List.mem_takeWhile_imp h
    simpa using this

/-- A configuration whose `opt_offset_end` gate is 5. -/
def offsetEndConfig : Config :=
  { opt_offset_start := 0, opt_offset_end := 5, opt_page_start := 0,
    max_bad_alloc_errors := 1, retry_seconds := 0 }

/-- A page starting at raw offset 8 — past the `offsetEndConfig` gate. -/
def farPage : Page :=
  { page_number := 2, raw_offset := 8, pagesize := 4, content := [1, 2, 3, 4],
    pos0 := { path := [], offset := 8 } }

/-- C8 (witness): concrete two-page run with `opt_offset_end = 5`: the loop
behaves as on the one-page prefix and submits only pages below offset 5. -/
theorem claim_C8_witness :
    (dispatch_loop offsetEndConfig noOom [zeroPage, farPage] 0 freshState =
      dispatch_loop offsetEndConfig noOom
        ([zeroPage, farPage].takeWhile
          fun p => decide (p.raw_offset < offsetEndConfig.opt_offset_end))
        0 freshState) ∧
    (∀ p ∈ (dispatch_loop offsetEndConfig noOom [zeroPage, farPage] 0
        freshState).submitted,
      p ∈ freshState.submitted ∨
        p.raw_offset < offsetEndConfig.opt_offset_end) :=
  claim_C8 offsetEndConfig noOom [zeroPage, farPage] 0 freshState (by decide)

/-- An oracle that throws `bad_alloc` on every attempt of candidate 0 and
never afterwards. -/
def oomAtFirstCandidate : Nat → Nat → Bool := fun k _ => k == 0

/-- C5 (counterexample): with `max_bad_alloc_errors = 1` and an allocation
that keeps failing at candidate 0, the retry budget is exhausted and the
fatal `runtime_error` is thrown — but the dispatch loop's catch-all
`catch (const std::exception&)` swallows it and the loop goes on to submit
the NEXT candidate, so the error does not stop dispatch. -/
theorem claim_C5_counterexample :
    (get_sbuf Page (page_alloc oomAtFirstCandidate 0 zeroPage) 0 1).result
      = none ∧
    (dispatch_loop onePassConfig oomAtFirstCandidate [zeroPage, farPage] 0
      freshState).submitted = [farPage] := by
  constructor
  · decide
  · decide

/-- C5 (amended): for any single position the producer makes at most
`max_bad_alloc_errors + 1` (in fact at most `max_bad_alloc_errors`)
allocation attempts; every out-of-memory failure is logged and followed by a
sleep of `retry_seconds`; the `runtime_error` is raised iff every attempt
failed with out-of-memory — and the dispatch loop then catches it and
continues with the next candidate unchanged, so the error does not stop
dispatch. -/
theorem claim_C5_amended :
    (∀ (α : Type) (alloc : Nat → Option α) (rs max : Nat),
      (get_sbuf α alloc rs max).attempts ≤ max + 1 ∧
      (get_sbuf α alloc rs max).logs ≤ max ∧
      (get_sbuf α alloc rs max).sleeps =
        List.replicate (get_sbuf α alloc rs max).logs rs ∧
      ((get_sbuf α alloc rs max).result = none ↔
        ∀ j, j < max → alloc j = none)) ∧
    (∀ (cfg : Config) (oom : Nat → Nat → Bool) (k : Nat) (page : Page)
        (st : DispatchState),
      (get_sbuf Page (page_alloc oom k page) cfg.retry_seconds
        cfg.max_bad_alloc_errors).result = none →
      dispatch_step cfg oom k page st = st) := by
  constructor
  · intro α alloc rs max
    have h := get_sbuf_spec α alloc rs max
    exact ⟨Nat.le_succ_of_le h.1, h.2.1, h.2.2.1, h.2.2.2⟩
  · exact dispatch_step_fatal

/-- C5 (witness): the retry bounds at a concrete oracle, and a concrete
exhausted-budget candidate leaving the dispatch state untouched. -/
theorem claim_C5_witness :
    ((get_sbuf Unit oomTwiceAlloc 30 1).attempts ≤ 2 ∧
      (get_sbuf Unit oomTwiceAlloc 30 1).logs ≤ 1 ∧
      (get_sbuf Unit oomTwiceAlloc 30 1).sleeps =
        List.replicate (get_sbuf Unit oomTwiceAlloc 30 1).logs 30 ∧
      ((get_sbuf Unit oomTwiceAlloc 30 1).result = none ↔
        ∀ j, j < 1 → oomTwiceAlloc j = none)) ∧
    dispatch_step onePassConfig oomAtFirstCandidate 0 zeroPage freshState =
      freshState :=
  ⟨claim_C5_amended.1 Unit oomTwiceAlloc 30 1,
    claim_C5_amended.2 onePassConfig oomAtFirstCandidate 0 zeroPage freshState
      (by decide)⟩

/-- C10: with `max_bad_alloc_errors = 0` the retry loop's body never runs:
`get_sbuf` makes zero allocation calls (and zero log entries and sleeps) and
immediately reports the fatal too-many-allocation-errors outcome; under that
configuration every candidate is dropped, so dispatch never acquires — and
never submits — any page. -/
theorem claim_C10 :
    (∀ (α : Type) (alloc : Nat → Option α) (rs : Nat),
      get_sbuf α alloc rs 0 =
        { result := none, attempts := 0, logs := 0, sleeps := [] }) ∧
    (∀ (cfg : Config) (oom : Nat → Nat → Bool) (l : List Page) (k : Nat)
        (st : DispatchState),
      cfg.max_bad_alloc_errors = 0 → dispatch_loop cfg oom l k st = st) := by
  constructor
  · intro α alloc rs
    rfl
  · intro cfg oom l
    induction l with
    | nil =>
      intro k st _
      rfl
    | cons page rest ih =>
      intro k st hmax
      rw [dispatch_loop]
      by_cases hb : cfg.opt_offset_end ≠ 0 ∧
          cfg.opt_offset_end ≤ page.raw_offset
      · rw [if_pos hb]
      · rw [if_neg hb,
          dispatch_step_fatal cfg oom k page st (by rw [hmax]; rfl),
          ih (k + 1) st hmax]

/-- A configuration with a zero retry budget. -/
def zeroRetryConfig : Config :=
  { opt_offset_start := 0, opt_offset_end := 0, opt_page_start := 0,
    max_bad_alloc_errors := 0, retry_seconds := 0 }

/-- C10 (witness): concrete instances of both parts. -/
theorem claim_C10_witness :
    get_sbuf Unit oomTwiceAlloc 30 0 =
      { result := none, attempts := 0, logs := 0, sleeps := [] } ∧
    dispatch_loop zeroRetryConfig noOom [zeroPage] 0 freshState =
      freshState :=
  ⟨claim_C10.1 Unit oomTwiceAlloc 30,
    claim_C10.2 zeroRetryConfig noOom [zeroPage] 0 freshState rfl⟩

/-- Soundness of a live SHA-1 generator: whatever was fed to it is exactly
the concatenation, in submission order, of the `pagesize`-byte logical
contents of all submitted pages. -/
def hashOk (st : DispatchState) : Prop :=
  ∀ fed, st.sha1g = some fed →
    fed = (st.submitted.map fun p => p.content.take p.pagesize).flatten

/-- A discarded SHA-1 generator stays discarded across one candidate: the
loop never recreates `sha1g`. -/
theorem dispatch_step_sha1_none (cfg : Config) (oom : Nat → Nat → Bool)
    (k : Nat) (page : Page) (st : DispatchState) (h : st.sha1g = none) :
    (dispatch_step cfg oom k page st).sha1g = none := by
  unfold dispatch_step
  by_cases hgate : cfg.opt_page_start ≤ page.page_number ∧
      cfg.opt_offset_start ≤ page.raw_offset
  · rw [if_pos hgate]
    by_cases hseen : page.pos0.str ∈ st.seen_page_ids
    · rw [if_pos hseen]
      exact h
    · rw [if_neg hseen]
      rcases get_sbuf_page_result oom k page cfg.retry_seconds
          cfg.max_bad_alloc_errors with hres | hres
      · rw [hres]
        exact h
      · rw [hres]
        dsimp only
        rw [h]
        exact h
  · rw [if_neg hgate]
    exact h

/-- One candidate preserves `hashOk`: a submitted page starting exactly at
`sha1_next` is fed (in submission order) and anything else either leaves the
generator alone or discards it. -/
theorem dispatch_step_hashOk (cfg : Config) (oom : Nat → Nat → Bool)
    (k : Nat) (page : Page) (st : DispatchState) (h : hashOk st) :
    hashOk (dispatch_step cfg oom k page st) := by
  unfold dispatch_step
  by_cases hgate : cfg.opt_page_start ≤ page.page_number ∧
      cfg.opt_offset_start ≤ page.raw_offset
  · rw [if_pos hgate]
    by_cases hseen : page.pos0.str ∈ st.seen_page_ids
    · rw [if_pos hseen]
      exact h
    · rw [if_neg hseen]
      rcases get_sbuf_page_result oom k page cfg.retry_seconds
          cfg.max_bad_alloc_errors with hres | hres
      · rw [hres]
        exact h
      · rw [hres]
        dsimp only
        cases h1 : st.sha1g with
        | none =>
          dsimp only
          intro fed hfed
          rw [h1] at hfed
          exact absurd hfed (by simp)
        | some fed0 =>
          dsimp only
          by_cases h2 : page.pos0.offset = st.sha1_next
          · rw [if_pos h2]
            intro fed hfed
            have hx : fed0 ++ page.content.take page.pagesize = fed := by
              injection hfed
            rw [← hx, h fed0 h1]
            simp [List.map_append, List.flatten_append]
          · rw [if_neg h2]
            intro fed hfed
            exact absurd hfed (by simp)
  · rw [if_neg hgate]
    exact h

/-- Invariance of `hashOk` across the whole dispatch loop. -/
theorem dispatch_loop_hashOk (cfg : Config) (oom : Nat → Nat → Bool) :
    ∀ (l : List Page) (k : Nat) (st : DispatchState),
      hashOk st → hashOk (dispatch_loop cfg oom l k st) := by
  intro l
  induction l with
  | nil =>
    intro k st h
    exact h
  | cons page rest ih =>
    intro k st h
    rw [dispatch_loop]
    by_cases hb : cfg.opt_offset_end ≠ 0 ∧ cfg.opt_offset_end ≤ page.raw_offset
    · rw [if_pos hb]
      exact h
    · rw [if_neg hb]
      exact ih (k + 1) _ (dispatch_step_hashOk cfg oom k page st h)

/-- A discarded SHA-1 generator stays discarded for the rest of the run. -/
theorem dispatch_loop_sha1_none (cfg : Config) (oom : Nat → Nat → Bool) :
    ∀ (l : List Page) (k : Nat) (st : DispatchState),
      st.sha1g = none → (dispatch_loop cfg oom l k st).sha1g = none := by
  intro l
  induction l with
  | nil =>
    intro k st h
    exact h
  | cons page rest ih =>
    intro k st h
    rw [dispatch_loop]
    by_cases hb : cfg.opt_offset_end ≠ 0 ∧ cfg.opt_offset_end ≤ page.raw_offset
    · rw [if_pos hb]
      exact h
    · rw [if_neg hb]
      exact ih (k + 1) _ (dispatch_step_sha1_none cfg oom k page st h)

/-- The producer state at the start of a run with hashing enabled: fresh
generator, `sha1_next = n0`, pre-loaded seen set, nothing submitted. -/
def hashStart (seen0 : List String) (n0 : Nat) : DispatchState :=
  { seen_page_ids := seen0, sha1g := some [], sha1_next := n0,
    total_bytes := 0, submitted := [] }

/-- C4: whenever the run ends with the rolling-hash generator still live —
i.e. the digest is emitted at finalization (`wait_for_workers`, lines
300–305) — the byte stream that was fed to it (hence its SHA-1 digest) is
exactly the concatenation of all submitted pages' `pagesize`-byte contents
in submission order; and any discard of the generator is permanent, so no
digest is emitted for the rest of the run once an offset mismatch occurred. -/
theorem claim_C4 :
    (∀ (cfg : Config) (oom : Nat → Nat → Bool) (l : List Page) (k : Nat)
        (seen0 : List String) (n0 : Nat) (fed : List Nat),
      (dispatch_loop cfg oom l k (hashStart seen0 n0)).sha1g = some fed →
      fed = ((dispatch_loop cfg oom l k
        (hashStart seen0 n0)).submitted.map
          fun p => p.content.take p.pagesize).flatten) ∧
    (∀ (cfg : Config) (oom : Nat → Nat → Bool) (l : List Page) (k : Nat)
        (st : DispatchState),
      st.sha1g = none → (dispatch_loop cfg oom l k st).sha1g = none) := by
  constructor
  · intro cfg oom l k seen0 n0 fed hfed
    have h0 : hashOk (hashStart seen0 n0) := by
      intro fed0 hf
      injection hf with hx
      rw [← hx]
      rfl
    exact dispatch_loop_hashOk cfg oom l k (hashStart seen0 n0) h0 fed hfed
  · exact dispatch_loop_sha1_none

/-- A two-byte page at offset 0 for the hash witness. -/
def hashedPage : Page :=
  { page_number := 0, raw_offset := 0, pagesize := 2, content := [7, 8],
    pos0 := { path := [], offset := 0 } }

/-- C4 (witness): a concrete hashing run — the surviving generator was fed
exactly the submitted page's bytes, and a run started with a discarded
generator emits no digest. -/
theorem claim_C4_witness :
    (dispatch_loop onePassConfig noOom [hashedPage] 0
      (hashStart [] 0)).sha1g = some [7, 8] ∧
    [7, 8] = ((dispatch_loop onePassConfig noOom [hashedPage] 0
      (hashStart [] 0)).submitted.map
        fun p => p.content.take p.pagesize).flatten ∧
    (dispatch_loop onePassConfig noOom [hashedPage] 0 freshState).sha1g =
      none :=
  ⟨by decide,
    claim_C4.1 onePassConfig noOom [hashedPage] 0 [] 0 [7, 8] (by decide),
    claim_C4.2 onePassConfig noOom [hashedPage] 0 freshState rfl⟩

/-- When the `opt_offset_end` gate is off, every candidate passes the
page/offset gates, the seen set is empty, the retry budget allows at least
one attempt and allocation never fails, the loop submits every candidate
page, in order. -/
theorem dispatch_loop_all (cfg : Config) (oom : Nat → Nat → Bool)
    (hend : cfg.opt_offset_end = 0) (hmax : 0 < cfg.max_bad_alloc_errors)
    (hoom : ∀ k, oom k 0 = false) :
    ∀ (l : List Page) (k : Nat) (st : DispatchState),
      (∀ p ∈ l, cfg.opt_page_start ≤ p.page_number ∧
        cfg.opt_offset_start ≤ p.raw_offset) →
      st.seen_page_ids = [] →
      (dispatch_loop cfg oom l k st).submitted = st.submitted ++ l := by
  intro l
  induction l with
  | nil =>
    intro k st _ _
    simp [dispatch_loop]
  | cons page rest ih =>
    intro k st hall hseen
    rw [dispatch_loop, if_neg (by simp [hend])]
    have hsubmit := dispatch_step_submit cfg oom k page st
      (hall page (List.mem_cons_self page rest))
      (by rw [hseen]; exact List.not_mem_nil _)
      (get_sbuf_success oom k page cfg.retry_seconds cfg.max_bad_alloc_errors
        hmax (hoom k))
    have hseen2 : (dispatch_step cfg oom k page st).seen_page_ids = [] := by
      rw [dispatch_step_seen, hseen]
    rw [ih (k + 1) _ (fun p hp => hall p (List.mem_cons_of_mem page hp))
      hseen2, hsubmit, List.append_assoc, List.singleton_append]

/-- A gate-free sequential-run configuration with retry budget `maxbad`. -/
def seqRunConfig (maxbad rs : Nat) : Config :=
  { opt_offset_start := 0, opt_offset_end := 0, opt_page_start := 0,
    max_bad_alloc_errors := maxbad, retry_seconds := rs }

/-- C7: a sequential run over an image of `M` pages with no offset or page
gates, a fresh seen set, and failure-free allocation submits exactly the `M`
pages, in order; their Positions are pairwise distinct, their first segments
are exactly the byte offsets `0, pagesize, …, (M-1)·pagesize`, and every
byte of `[0, M·pagesize)` is covered by exactly one submitted page. -/
theorem claim_C7 (content : Nat → List Nat) (ps M maxbad rs : Nat)
    (hps : 0 < ps) (hmax : 0 < maxbad) :
    (dispatch_loop (seqRunConfig maxbad rs) noOom (seqPages content ps M) 0
      freshState).submitted = seqPages content ps M ∧
    (seqPages content ps M).length = M ∧
    ((seqPages content ps M).map fun p => p.pos0.offset) =
      ((List.range M).map fun i => i * ps) ∧
    ((seqPages content ps M).map fun p => p.pos0).Nodup ∧
    (∀ a, a < M * ps → ∃! p, p ∈ seqPages content ps M ∧
      p.pos0.offset ≤ a ∧ a < p.pos0.offset + p.pagesize) := by
  refine ⟨?_, ?_, ?_, ?_, ?_⟩
  · have h := dispatch_loop_all (seqRunConfig maxbad rs) noOom rfl hmax
      (fun _ => rfl) (seqPages content ps M) 0 freshState
      (fun p _ => ⟨Nat.zero_le _, Nat.zero_le _⟩) rfl
    rw [h]
    rfl
  · simp [seqPages]
  · simp only [seqPages, List.map_map]
    rfl
  · simp only [seqPages, List.map_map]
    refine List.Nodup.map ?_ (List.nodup_range M)
    intro i j hij
    have hmul : i * ps = j * ps := by
      have := congrArg Position.offset hij
      simpa [seqPageAt] using this
    exact Nat.eq_of_mul_eq_mul_right hps hmul
  · intro a ha
    have hdm := Nat.div_add_mod a ps
    have hmod := Nat.mod_lt a hps
    have hcomm : ps * (a / ps) = a / ps * ps := Nat.mul_comm ps (a / ps)
    have hlt : a / ps < M := by
      by_contra hge
      push_neg at hge
      have hmm : M * ps ≤ a / ps * ps := Nat.mul_le_mul_right ps hge
      omega
    refine ⟨seqPageAt content ps (a / ps),
      ⟨List.mem_map_of_mem _ (List.mem_range.mpr hlt), ?_, ?_⟩, ?_⟩
    · show a / ps * ps ≤ a
      omega
    · show a < a / ps * ps + ps
      omega
    · rintro q ⟨hqmem, hq1, hq2⟩
      obtain ⟨j, hjr, rfl⟩ := List.mem_map.mp hqmem
      have h1 : j * ps ≤ a := hq1
      have h2 : a < j * ps + ps := hq2
      have hj_eq : j = a / ps := by
        by_contra hne
        rcases Nat.lt_or_ge j (a / ps) with hlt2 | hge2
        · have hle2 : j + 1 ≤ a / ps := hlt2
          have hmul : (j + 1) * ps ≤ a / ps * ps :=
            Nat.mul_le_mul_right ps hle2
          have hsucc : (j + 1) * ps = j * ps + ps := Nat.succ_mul j ps
          omega
        · have hlt3 : a / ps + 1 ≤ j := by omega
          have hmul : (a / ps + 1) * ps ≤ j * ps :=
            Nat.mul_le_mul_right ps hlt3
          have hsucc : (a / ps + 1) * ps = a / ps * ps + ps :=
            Nat.succ_mul (a / ps) ps
          omega
      rw [hj_eq]

/-- Constant demo page contents for the C7 witness. -/
def demoContent : Nat → List Nat := fun _ => [3, 4]

/-- C7 (witness): the sequential-coverage theorem at a concrete two-page
image with pagesize 2. -/
theorem claim_C7_witness :
    (dispatch_loop (seqRunConfig 1 0) noOom (seqPages demoContent 2 2) 0
      freshState).submitted = seqPages demoContent 2 2 ∧
    (seqPages demoContent 2 2).length = 2 ∧
    ((seqPages demoContent 2 2).map fun p => p.pos0.offset) =
      ((List.range 2).map fun i => i * 2) ∧
    ((seqPages demoContent 2 2).map fun p => p.pos0).Nodup ∧
    (∀ a, a < 2 * 2 → ∃! p, p ∈ seqPages demoContent 2 2 ∧
      p.pos0.offset ≤ a ∧ a < p.pos0.offset + p.pagesize) :=
  claim_C7 demoContent 2 2 1 0 (by decide) (by decide)

end BulkExtractor
